import Mathlib

/-!
# Verification of the gitnot change-detection and versioned-snapshot engine

Shallow embedding of `main.go` of the `gitnot-go` repository: content
fingerprinting (`hashFile`, SHA-1), new/changed/deleted classification,
diff-to-changelog rendering (`formatDiffAsMarkdown`), version bumping
(`bumpVersion`), the snapshot rebuild, and the `updateGitnot` /
`initGitnot` checkpoint operations, together with theorems settling the
specification claims.

Conventions: Go strings are modelled as `String` where only equality
matters (map keys) and as `List Char` where character-level structure
matters (diff lines, hashes, path components); file bytes are `List ℕ`;
the Go `float64` version counter is modelled over `ℚ` (the code's own
rounding keeps it on the one-decimal grid); filesystem state is an
explicit record, and `updateGitnot` is factored through the ordered list
of write effects it performs, so that interrupted runs are expressible
as prefixes of that list.
-/

/-! ## Part I: definitions -/

/-- Go map lookup on an association list (`oldHashes[f]`); keys are unique
in every map produced by the program (JSON objects, sorted file lists). -/
def lookupS : List (String × String) → String → Option String
  | [], _ => none
  | (k, v) :: rest, f => if k = f then some v else lookupS rest f

/-! ### Change classification (`updateGitnot`, main.go lines 363-367)

Translated from the three detection `for` loops of `updateGitnot` (and
`showStatus`): new = present now, absent before; changed = present in
both with a different fingerprint; deleted = present before, absent now.
`Unchanged` is the remaining class, named by the specification. -/

/-- `for f := range current { if _, ok := oldHashes[f]; !ok { newFiles = append ... } }` -/
def classifyNew (old cur : List (String × String)) : List String :=
  (cur.map Prod.fst).filter (fun f => (lookupS old f).isNone)

/-- `for f, h := range current { if oh, ok := oldHashes[f]; ok && oh != h { changedFiles = append ... } }` -/
def classifyChanged (old cur : List (String × String)) : List String :=
  (cur.filter (fun fh =>
    match lookupS old fh.1 with
    | some oh => decide (oh ≠ fh.2)
    | none => false)).map Prod.fst

/-- `for f := range oldHashes { if _, ok := current[f]; !ok { deletedFiles = append ... } }` -/
def classifyDeleted (old cur : List (String × String)) : List String :=
  (old.map Prod.fst).filter (fun f => (lookupS cur f).isNone)

/-- The residual class: present in both maps with equal fingerprints. -/
def classifyUnchanged (old cur : List (String × String)) : List String :=
  (cur.filter (fun fh =>
    match lookupS old fh.1 with
    | some oh => decide (oh = fh.2)
    | none => false)).map Prod.fst

/-! ### Version counter (`bumpVersion`, main.go lines 103-113)

The Go code stores the version as a `float64`; its own rounding line
(`float64(int((v+0.1)*10+0.5)) / 10.0`, commented "keep one decimal,
avoid fp drift") keeps every persisted value on the one-decimal grid, so
the arithmetic is modelled exactly over `ℚ`. -/

/-- Go's `int(x)` conversion: truncation toward zero. -/
def goInt (x : ℚ) : ℤ := if 0 ≤ x then ⌊x⌋ else ⌈x⌉

/-- `v = float64(int((v+0.1)*10+0.5)) / 10.0` (main.go:108). -/
def bumpVersion (v : ℚ) : ℚ := ((goInt ((v + 1/10) * 10 + 1/2) : ℤ) : ℚ) / 10

/-! ### Checkpoint engine state

The on-disk stores of `.gitnot/` as an explicit record.  `workFiles` is
the sorted tracked-file list paired with each file's current fingerprint
(the code computes `current[f] = hashFile(f)`); `hashes` is
`hashes.json` (`none` = unreadable/corrupt, the code then uses an empty
map); `snapshot` is the mirror directory (`none` = directory missing);
`changelogs` maps a path to its append-only entry list; `deletedStore`
is the `deleted/` directory. -/

/-- One changelog entry; the claims under verification inspect which
entries exist and in which order, not the rendered body text (the body
renderer is modelled separately as `formatDiffAsMarkdown`). -/
inductive ClEntry where
  | original
  | newFile (ver : ℚ)
  | changed (ver : ℚ)
  | deleted (ver : ℚ)
  deriving DecidableEq

structure GState where
  gitnotExists : Bool
  workFiles : List (String × String)
  hashes : Option (List (String × String))
  version : ℚ
  snapshot : Option (List (String × String))
  changelogs : List (String × List ClEntry)
  deletedStore : List (String × String)
  deriving DecidableEq

/-- `appendToFile(clPath, ...)`: append one entry to a path's changelog,
creating the log when absent. -/
def appendLog (cls : List (String × List ClEntry)) (p : String) (e : ClEntry) :
    List (String × List ClEntry) :=
  match cls with
  | [] => [(p, [e])]
  | (q, es) :: rest =>
    if q = p then (q, es ++ [e]) :: rest else (q, es) :: appendLog rest p e

/-- `copyFile(from, to)` into `deleted/` overwrites any previous copy. -/
def setKV (l : List (String × String)) (p v : String) : List (String × String) :=
  match l with
  | [] => [(p, v)]
  | (q, w) :: rest => if q = p then (q, v) :: rest else (q, w) :: setKV rest p v

/-- Outcome of the snapshot-replacement block (main.go lines 416-448). -/
inductive SnapOutcome where
  | replaced (m : List (String × String))
  | dropped
  | kept
  deriving DecidableEq

/-- One write effect of `updateGitnot`, in the order the code performs
them; an interrupted run is a prefix of the effect list. -/
inductive Eff where
  | bumpV (v : ℚ)
  | clog (p : String) (e : ClEntry)
  | toDeleted (p : String)
  | snapResult (r : SnapOutcome)
  | saveH (m : List (String × String))
  deriving DecidableEq

def applyEff (st : GState) : Eff → GState
  | .bumpV v => { st with version := v }
  | .clog p e => { st with changelogs := appendLog st.changelogs p e }
  | .toDeleted p =>
    match st.snapshot with
    | some snap =>
      match lookupS snap p with
      | some c =>
        { st with snapshot := some (snap.filter (fun kv => decide (kv.1 ≠ p))),
                  deletedStore := setKV st.deletedStore p c }
      | none => st
    | none => st
  | .snapResult r =>
    match r with
    | .replaced m => { st with snapshot := some m }
    | .dropped => { st with snapshot := none }
    | .kept => st
  | .saveH m => { st with hashes := some m }

/-- Failure oracles for the filesystem operations of the snapshot
rebuild: temp-directory creation, per-file copy, `os.RemoveAll` of the
old mirror, and the final `os.Rename`. -/
structure Oracles where
  tempOk : Bool
  copyOk : String → Bool
  removeOk : Bool
  renameOk : Bool

/-- The snapshot-replacement block, main.go lines 418-448: build the new
mirror in a temp directory; on any copy (or directory-creation) failure
warn and leave the mirror untouched; otherwise remove the old mirror
(failure: warn, mirror kept) and rename the temp directory into place
(failure: warn, snapshot gone).  Second component: whether a warning was
printed. -/
def snapOutcome (files : List (String × String)) (o : Oracles) :
    SnapOutcome × Bool :=
  if o.tempOk = false then (.kept, true)
  else if files.all (fun fh => o.copyOk fh.1) then
    if o.removeOk = false then (.kept, true)
    else if o.renameOk = false then (.dropped, true)
    else (.replaced files, false)
  else (.kept, true)

/-- The rebuild seen as a transformation of the mirror itself:
`rebuildSnapshot snap files o = (new mirror contents, warning?)`. -/
def rebuildSnapshot (snap : List (String × String))
    (files : List (String × String)) (o : Oracles) :
    Option (List (String × String)) × Bool :=
  let so := snapOutcome files o
  (match so.1 with
   | .replaced m => some m
   | .dropped => none
   | .kept => some snap, so.2)

inductive UpdateResult where
  | errNotInit
  | noChanges
  | abortedSnapshotMissing
  | ok (ver : ℚ)
  deriving DecidableEq

/-- The writes of the change-handling loops of `updateGitnot` (main.go
lines 376-414), after the version bump: new-file changelog entries, then
changed-file entries, then per deleted file its entry followed by the
snapshot-to-deleted-store move. -/
def updateMid (st : GState) : List Eff :=
  let old := st.hashes.getD []
  let cur := st.workFiles
  let ver := bumpVersion st.version
  (classifyNew old cur).map (fun p => Eff.clog p (.newFile ver)) ++
  (classifyChanged old cur).map (fun p => Eff.clog p (.changed ver)) ++
  (classifyDeleted old cur).flatMap
    (fun p => [Eff.clog p (.deleted ver), Eff.toDeleted p])

/-- Everything `updateGitnot` writes before the snapshot-replacement
block: the version bump (line 372) then the changelog and deleted-store
writes. -/
def updatePre (st : GState) : List Eff :=
  Eff.bumpV (bumpVersion st.version) :: updateMid st

/-- `updateGitnot` (main.go lines 351-459) as the ordered list of write
effects it performs plus its outcome.  The `os.Stat(snapshotDir)` test
at line 417 is evaluated on `st.snapshot` since the deleted-file moves
never remove the directory itself.  In the missing-snapshot branch the
function returns (with a reinitialize instruction) before `saveJSON`;
in the present-snapshot branch `saveJSON(hashesFile, current)` runs
unconditionally after the replacement block. -/
def updateTrace (st : GState) (o : Oracles) : List Eff × UpdateResult :=
  if st.gitnotExists = false then ([], .errNotInit)
  else if (classifyNew (st.hashes.getD []) st.workFiles).length +
          (classifyChanged (st.hashes.getD []) st.workFiles).length +
          (classifyDeleted (st.hashes.getD []) st.workFiles).length = 0 then
    ([], .noChanges)
  else
    match st.snapshot with
    | none => (updatePre st, .abortedSnapshotMissing)
    | some _ =>
      (updatePre st ++ [Eff.snapResult (snapOutcome st.workFiles o).1,
                        Eff.saveH st.workFiles],
       .ok (bumpVersion st.version))

def updateGitnot (st : GState) (o : Oracles) : GState × UpdateResult :=
  ((updateTrace st o).1.foldl applyEff st, (updateTrace st o).2)

/-- One iteration of the file loop of `initGitnot` (main.go lines
332-343), on the accumulated (snapshot, hashes, changelogs): copy into
the snapshot (failure ⇒ `continue`), record the fingerprint, append the
initial changelog entry. -/
def initStep (copyOk : String → Bool)
    (acc : List (String × String) × List (String × String) ×
           List (String × List ClEntry))
    (fh : String × String) :
    List (String × String) × List (String × String) ×
    List (String × List ClEntry) :=
  if copyOk fh.1 then
    (acc.1 ++ [fh], acc.2.1 ++ [fh], appendLog acc.2.2 fh.1 .original)
  else acc

/-- `initGitnot` (main.go lines 319-349): run the file loop, then
persist fingerprints and version 0.0.  The Bool is the success of the
run (per-file copy failures never fail it). -/
def initGitnot (files : List (String × String)) (copyOk : String → Bool) :
    GState × Bool :=
  let acc := files.foldl (initStep copyOk) ([], [], [])
  ({ gitnotExists := true, workFiles := files, hashes := some acc.2.1,
     version := 0, snapshot := some acc.1, changelogs := acc.2.2,
     deletedStore := [] }, true)

/-- The run detected at least one change (the guard at main.go:368). -/
def changesDetected (st : GState) : Prop :=
  (classifyNew (st.hashes.getD []) st.workFiles).length +
  (classifyChanged (st.hashes.getD []) st.workFiles).length +
  (classifyDeleted (st.hashes.getD []) st.workFiles).length ≠ 0

instance (st : GState) : Decidable (changesDetected st) := by
  unfold changesDetected; infer_instance

/-! ### Content fingerprinting (`hashFile`, main.go lines 167-186)

`hashFile` reads the file and feeds it to `crypto/sha1`; SHA-1 is
implemented here over byte lists with `Nat` word arithmetic mod `2^32`. -/

/-- 32-bit wraparound. -/
def w32 (n : ℕ) : ℕ := n % 4294967296

/-- 32-bit left rotation of a word. -/
def rotl (k n : ℕ) : ℕ := w32 ((n <<< k) ||| (n >>> (32 - k)))

/-- SHA-1 padding: `0x80`, zeros to 56 mod 64, 8-byte big-endian bit length. -/
def padMsg (msg : List ℕ) : List ℕ :=
  let bitLen := msg.length * 8
  let z := (119 - (msg.length % 64)) % 64
  msg ++ [128] ++ List.replicate z 0 ++
    [(bitLen >>> 56) % 256, (bitLen >>> 48) % 256, (bitLen >>> 40) % 256,
     (bitLen >>> 32) % 256, (bitLen >>> 24) % 256, (bitLen >>> 16) % 256,
     (bitLen >>> 8) % 256, bitLen % 256]

/-- Big-endian 4-byte groups to 32-bit words. -/
def bytesToWords : List ℕ → List ℕ
  | b0 :: b1 :: b2 :: b3 :: rest =>
    ((b0 <<< 24) ||| (b1 <<< 16) ||| (b2 <<< 8) ||| b3) :: bytesToWords rest
  | _ => []

/-- Extend the 16-word schedule by `k` further words. -/
def extendW (w : List ℕ) : ℕ → List ℕ
  | 0 => w
  | k + 1 =>
    let n := w.length
    let x := rotl 1 ((w.getD (n - 3) 0) ^^^ (w.getD (n - 8) 0) ^^^
                     (w.getD (n - 14) 0) ^^^ (w.getD (n - 16) 0))
    extendW (w ++ [x]) k

def sha1F (i b c d : ℕ) : ℕ :=
  if i < 20 then (b &&& c) ||| ((b ^^^ 4294967295) &&& d)
  else if i < 40 then b ^^^ c ^^^ d
  else if i < 60 then (b &&& c) ||| (b &&& d) ||| (c &&& d)
  else b ^^^ c ^^^ d

def sha1K (i : ℕ) : ℕ :=
  if i < 20 then 0x5A827999
  else if i < 40 then 0x6ED9EBA1
  else if i < 60 then 0x8F1BBCDC
  else 0xCA62C1D6

def sha1Round (st : ℕ × ℕ × ℕ × ℕ × ℕ) (iw : ℕ × ℕ) : ℕ × ℕ × ℕ × ℕ × ℕ :=
  let temp := w32 (rotl 5 st.1 + sha1F iw.1 st.2.1 st.2.2.1 st.2.2.2.1 +
                   st.2.2.2.2 + sha1K iw.1 + iw.2)
  (temp, st.1, rotl 30 st.2.1, st.2.2.1, st.2.2.2.1)

/-- The five running hash words. -/
structure H5 where
  h0 : ℕ
  h1 : ℕ
  h2 : ℕ
  h3 : ℕ
  h4 : ℕ

def initH : H5 := ⟨0x67452301, 0xEFCDAB89, 0x98BADCFE, 0x10325476, 0xC3D2E1F0⟩

def processChunk (h : H5) (chunk : List ℕ) : H5 :=
  let w := extendW (bytesToWords chunk) 64
  let fin := ((List.range 80).zip w).foldl sha1Round (h.h0, h.h1, h.h2, h.h3, h.h4)
  ⟨w32 (h.h0 + fin.1), w32 (h.h1 + fin.2.1), w32 (h.h2 + fin.2.2.1),
   w32 (h.h3 + fin.2.2.2.1), w32 (h.h4 + fin.2.2.2.2)⟩

def chunks64 (l : List ℕ) : List (List ℕ) :=
  if h : l = [] then [] else l.take 64 :: chunks64 (l.drop 64)
termination_by l.length
decreasing_by
  have := List.length_pos.mpr h
  simp only [List.length_drop]
  omega

def sha1Words (msg : List ℕ) : H5 :=
  (chunks64 (padMsg msg)).foldl processChunk initH

def hexDigit (n : ℕ) : Char :=
  if n < 10 then Char.ofNat (48 + n) else Char.ofNat (87 + n)

def byteHex (b : ℕ) : List Char := [hexDigit (b / 16 % 16), hexDigit (b % 16)]

def wordHex (w : ℕ) : List Char :=
  byteHex ((w >>> 24) % 256) ++ byteHex ((w >>> 16) % 256) ++
  byteHex ((w >>> 8) % 256) ++ byteHex (w % 256)

/-- `fmt.Sprintf("%x", h.Sum(nil))`: lowercase hex of the 20 digest bytes. -/
def sha1Hex (msg : List ℕ) : List Char :=
  let h := sha1Words msg
  wordHex h.h0 ++ wordHex h.h1 ++ wordHex h.h2 ++ wordHex h.h3 ++ wordHex h.h4

/-- `filepath.Base`. -/
def baseNameChars (p : List Char) : List Char :=
  if p = [] then ['.']
  else
    let q := (p.reverse.dropWhile (fun c => c == '/')).reverse
    if q = [] then ['/']
    else (q.reverse.takeWhile (fun c => c != '/')).reverse

/-- `hashFile(p)` (main.go lines 167-186) over an explicit filesystem
`fs` (path ↦ file bytes; `none` = `os.Open` fails): unreadable files get
the sentinel `"unreadable-" + base name`, readable files the SHA-1 hex
digest of their content. -/
def hashFile (fs : List Char → Option (List ℕ)) (p : List Char) : List Char :=
  match fs p with
  | none => "unreadable-".toList ++ baseNameChars p
  | some bytes => sha1Hex bytes

/-- A character is a lowercase hex digit. -/
def isHexDigitChar (c : Char) : Bool :=
  ('0' ≤ c && c ≤ '9') || ('a' ≤ c && c ≤ 'f')

/-! ### Changelog rendering (`formatDiffAsMarkdown`, main.go lines 237-315) -/

/-- `strings.TrimSpace`. -/
def trimChars (l : List Char) : List Char :=
  (((l.dropWhile Char.isWhitespace).reverse).dropWhile Char.isWhitespace).reverse

/-- `strings.Fields`: split around runs of whitespace. -/
def fieldsChars (l : List Char) : List (List Char) :=
  (l.splitOnP Char.isWhitespace).filter (fun s => !s.isEmpty)

/-- Decimal digit-string value; `none` when empty or non-digit. -/
def digitsVal? (l : List Char) : Option ℕ :=
  if l.isEmpty then none
  else if l.all Char.isDigit then
    some (l.foldl (fun n c => n * 10 + (c.toNat - 48)) 0)
  else none

/-- `strconv.Atoi`: optional sign, then digits. -/
def atoiChars : List Char → Option ℤ
  | '-' :: rest => (digitsVal? rest).map (fun n => -(n : ℤ))
  | '+' :: rest => (digitsVal? rest).map (fun n => (n : ℤ))
  | l => (digitsVal? l).map (fun n => (n : ℤ))

/-- `strings.TrimPrefix(s, c)` for a one-character prefix. -/
def trimPrefixChar (c : Char) : List Char → List Char
  | [] => []
  | x :: rest => if x = c then rest else x :: rest

/-- Old-side hunk-header parse: `parts := strings.Fields(line)`,
`strings.Split(parts[1], ",")[0]`, strip `-`, `Atoi`; keep the incoming
counter on any parse failure (main.go lines 251-264). -/
def parseHunkOld (line : List Char) (o : ℤ) : ℤ :=
  let parts := fieldsChars line
  if parts.length ≥ 3 then
    match atoiChars (trimPrefixChar '-' (((parts.getD 1 []).splitOn ',').headD [])) with
    | some m => m
    | none => o
  else o

/-- New-side hunk-header parse, from `parts[2]` with `+` stripped. -/
def parseHunkNew (line : List Char) (n : ℤ) : ℤ :=
  let parts := fieldsChars line
  if parts.length ≥ 3 then
    match atoiChars (trimPrefixChar '+' (((parts.getD 2 []).splitOn ',').headD [])) with
    | some m => m
    | none => n
  else n

/-- `fmt.Sprintf("L%d: %s", ln, content)`. -/
def fmtL (k : ℤ) (content : List Char) : List Char :=
  'L' :: ((if k < 0 then '-' :: Nat.toDigits 10 k.natAbs
           else Nat.toDigits 10 k.toNat) ++ (':' :: ' ' :: content))

/-- The look-ahead at main.go lines 270-278: a `-` line immediately
followed by a `+` line with identical trimmed content. -/
def pairSkip (line : List Char) (rest : List (List Char)) : Bool :=
  match line, rest with
  | '-' :: r, ('+' :: a) :: _ => trimChars r == trimChars a
  | _, _ => false

/-- The line walk of `formatDiffAsMarkdown` (main.go lines 247-294) with
the two line counters and the accumulated Added/Removed entries
explicit; returns `(added, removed)`. -/
def walkDiff : List (List Char) → ℤ → ℤ → List (List Char) → List (List Char) →
    List (List Char) × List (List Char)
  | [], _, _, ad, rm => (ad, rm)
  | line :: rest, o, n, ad, rm =>
    if ['@','@'].isPrefixOf line then
      walkDiff rest (parseHunkOld line o) (parseHunkNew line n) ad rm
    else if pairSkip line rest then
      match rest with
      | _ :: rest2 => walkDiff rest2 (o + 1) (n + 1) ad rm
      | [] => (ad, rm)
    else if ['-'].isPrefixOf line && !(['-','-','-'].isPrefixOf line) then
      walkDiff rest (o + 1) n ad (rm ++ [fmtL o (trimChars line.tail)])
    else if ['+'].isPrefixOf line && !(['+','+','+'].isPrefixOf line) then
      walkDiff rest o (n + 1) (ad ++ [fmtL n (trimChars line.tail)]) rm
    else if ['\\'].isPrefixOf line then
      walkDiff rest o n ad rm
    else
      walkDiff rest (o + 1) (n + 1) ad rm

/-- `formatDiffAsMarkdown(diffText)` (main.go lines 237-315): empty text
yields the fixed marker; otherwise split on newlines, walk, then emit
the Added section followed by the Removed section, omitting empty
ones. -/
def formatDiffAsMarkdown (diffText : List Char) : List Char :=
  if diffText.isEmpty then "📄 File changed (no readable diff)\n".toList
  else
    let ar := walkDiff (diffText.splitOn '\n') 0 0 [] []
    (if !ar.1.isEmpty then
      "### ➕ Added\n".toList ++ ar.1.flatMap (fun l => l ++ ['\n']) ++ ['\n']
     else []) ++
    (if !ar.2.isEmpty then
      "### ➖ Removed\n".toList ++ ar.2.flatMap (fun l => l ++ ['\n']) ++ ['\n']
     else [])

/-! ### File scanning (`isUnderGitnot` / `getAllTextFiles`, main.go lines 188-219) -/

/-- `strings.HasPrefix(filepath.ToSlash(p), ".gitnot")` (main.go:189);
`ToSlash` is the identity on the slash-normalized relative paths the
walk produces. -/
def isUnderGitnot (p : List Char) : Bool := ".gitnot".toList.isPrefixOf p

/-- The path-segment test the specification contrasts with: `p` is the
state directory itself or lies below it. -/
def isUnderGitnotSegment (p : List Char) : Bool :=
  p == ".gitnot".toList || ".gitnot/".toList.isPrefixOf p

/-- A directory-tree entry as visited by `filepath.WalkDir`. -/
inductive FsTree where
  | file (name : List Char)
  | dir (name : List Char) (children : List FsTree)

/-- `hasAnySuffix(name, exts)` (main.go lines 125-133). -/
def hasAnySuffix (name : List Char) (exts : List (List Char)) : Bool :=
  exts.any (fun e => (e.map Char.toLower).isSuffixOf (name.map Char.toLower))

mutual

/-- The walk of `getAllTextFiles` (main.go lines 195-213): a directory
matching `isUnderGitnot` is skipped with its whole subtree
(`filepath.SkipDir`); a file is kept when its name passes the extension
filter and the ignore filter `ign` (the `shouldIgnore` collaborator)
does not match its path. -/
def walkCollect (exts : List (List Char)) (ign : List Char → Bool) :
    List Char → FsTree → List (List Char)
  | pre, .file name =>
    if hasAnySuffix name exts && !ign (pre ++ name) then [pre ++ name] else []
  | pre, .dir name children =>
    if isUnderGitnot (pre ++ name) then []
    else walkForest exts ign (pre ++ name ++ ['/']) children

/-- The children of a directory, visited in order. -/
def walkForest (exts : List (List Char)) (ign : List Char → Bool) :
    List Char → List FsTree → List (List Char)
  | _, [] => []
  | pre, t :: ts => walkCollect exts ign pre t ++ walkForest exts ign pre ts

end

/-- `getAllTextFiles(".")`: the root's entries walked with an empty
prefix (`filepath.Join(".", x) = x`); the final `sort.Strings` only
permutes the list and is omitted. -/
def getAllTextFiles (exts : List (List Char)) (ign : List Char → Bool)
    (root : List FsTree) : List (List Char) :=
  walkForest exts ign [] root

/-! ## Part II: theorems -/

/-! ### Association-list lemmas -/

theorem lookupS_eq_none_iff (l : List (String × String)) (f : String) :
    lookupS l f = none ↔ f ∉ l.map Prod.fst := by
  induction l with
  | nil => simp [lookupS]
  | cons kv rest ih =>
    obtain ⟨k, v⟩ := kv
    by_cases h : k = f
    · subst h; simp [lookupS]
    · simp [lookupS, h, ih, Ne.symm h]

theorem mem_of_lookupS_eq_some {l : List (String × String)} {f v : String}
    (h : lookupS l f = some v) : (f, v) ∈ l := by
  induction l with
  | nil => simp [lookupS] at h
  | cons kv rest ih =>
    obtain ⟨k, w⟩ := kv
    by_cases hk : k = f
    · subst hk
      simp [lookupS] at h
      simp [h]
    · simp [lookupS, hk] at h
      exact List.mem_cons_of_mem _ (ih h)

theorem lookupS_isSome_iff (l : List (String × String)) (f : String) :
    (lookupS l f).isSome = true ↔ f ∈ l.map Prod.fst := by
  constructor
  · intro hs
    rcases Option.isSome_iff_exists.mp hs with ⟨v, hv⟩
    exact List.mem_map.mpr ⟨(f, v), mem_of_lookupS_eq_some hv, rfl⟩
  · intro hm
    by_contra hns
    rw [Option.not_isSome_iff_eq_none] at hns
    exact (lookupS_eq_none_iff l f).mp hns hm

theorem lookupS_eq_some_of_mem {l : List (String × String)} {f v : String}
    (hnd : (l.map Prod.fst).Nodup) (h : (f, v) ∈ l) : lookupS l f = some v := by
  induction l with
  | nil => simp at h
  | cons kv rest ih =>
    obtain ⟨k, w⟩ := kv
    simp only [List.map_cons, List.nodup_cons] at hnd
    rcases List.mem_cons.mp h with h1 | h2
    · obtain ⟨rfl, rfl⟩ := Prod.mk.injEq .. ▸ h1
      simp [lookupS]
    · have hkf : k ≠ f := by
        rintro rfl
        exact hnd.1 (List.mem_map.mpr ⟨(k, v), h2, rfl⟩)
      simp [lookupS, hkf, ih hnd.2 h2]

/-! ### Classification membership -/

theorem mem_classifyNew_iff (old cur : List (String × String)) (f : String) :
    f ∈ classifyNew old cur ↔ f ∈ cur.map Prod.fst ∧ lookupS old f = none := by
  simp [classifyNew, List.mem_filter, Option.isNone_iff_eq_none]

theorem mem_classifyDeleted_iff (old cur : List (String × String)) (f : String) :
    f ∈ classifyDeleted old cur ↔ f ∈ old.map Prod.fst ∧ lookupS cur f = none := by
  simp [classifyDeleted, List.mem_filter, Option.isNone_iff_eq_none]

theorem mem_classifyChanged_iff (old cur : List (String × String)) (f : String)
    (hc : (cur.map Prod.fst).Nodup) :
    f ∈ classifyChanged old cur ↔
      ∃ h oh, lookupS cur f = some h ∧ lookupS old f = some oh ∧ oh ≠ h := by
  constructor
  · intro hf
    simp only [classifyChanged, List.mem_map] at hf
    obtain ⟨⟨g, h⟩, hmem, hfst⟩ := hf
    obtain ⟨hin, hcond⟩ := List.mem_filter.mp hmem
    simp only at hfst
    subst hfst
    refine ⟨h, ?_⟩
    cases hold : lookupS old g with
    | none => rw [hold] at hcond; simp at hcond
    | some oh =>
      rw [hold] at hcond
      simp only [decide_eq_true_eq] at hcond
      exact ⟨oh, lookupS_eq_some_of_mem hc hin, rfl, hcond⟩
  · rintro ⟨h, oh, hcur, hold, hne⟩
    simp only [classifyChanged, List.mem_map]
    refine ⟨(f, h), List.mem_filter.mpr ⟨mem_of_lookupS_eq_some hcur, ?_⟩, rfl⟩
    simp [hold, hne]

theorem mem_classifyUnchanged_iff (old cur : List (String × String)) (f : String)
    (hc : (cur.map Prod.fst).Nodup) :
    f ∈ classifyUnchanged old cur ↔
      ∃ h, lookupS cur f = some h ∧ lookupS old f = some h := by
  constructor
  · intro hf
    simp only [classifyUnchanged, List.mem_map] at hf
    obtain ⟨⟨g, h⟩, hmem, hfst⟩ := hf
    obtain ⟨hin, hcond⟩ := List.mem_filter.mp hmem
    simp only at hfst
    subst hfst
    cases hold : lookupS old g with
    | none => rw [hold] at hcond; simp at hcond
    | some oh =>
      rw [hold] at hcond
      simp only [decide_eq_true_eq] at hcond
      subst hcond
      exact ⟨oh, lookupS_eq_some_of_mem hc hin, rfl⟩
  · rintro ⟨h, hcur, hold⟩
    simp only [classifyUnchanged, List.mem_map]
    refine ⟨(f, h), List.mem_filter.mpr ⟨mem_of_lookupS_eq_some hcur, ?_⟩, rfl⟩
    simp [hold]

/-- C3: the four classification sets partition the union of the before
and after path sets: each path of that union lies in exactly one of
NewFiles, ChangedFiles, DeletedFiles, Unchanged, the sets are pairwise
disjoint, and their union covers exactly the union of both key sets. -/
theorem classification_partition (old cur : List (String × String))
    (ho : (old.map Prod.fst).Nodup) (hc : (cur.map Prod.fst).Nodup) :
    (∀ f, (f ∈ old.map Prod.fst ∨ f ∈ cur.map Prod.fst) ↔
        (f ∈ classifyNew old cur ∨ f ∈ classifyChanged old cur ∨
         f ∈ classifyDeleted old cur ∨ f ∈ classifyUnchanged old cur)) ∧
    (∀ f, ¬ (f ∈ classifyNew old cur ∧ f ∈ classifyChanged old cur)) ∧
    (∀ f, ¬ (f ∈ classifyNew old cur ∧ f ∈ classifyDeleted old cur)) ∧
    (∀ f, ¬ (f ∈ classifyNew old cur ∧ f ∈ classifyUnchanged old cur)) ∧
    (∀ f, ¬ (f ∈ classifyChanged old cur ∧ f ∈ classifyDeleted old cur)) ∧
    (∀ f, ¬ (f ∈ classifyChanged old cur ∧ f ∈ classifyUnchanged old cur)) ∧
    (∀ f, ¬ (f ∈ classifyDeleted old cur ∧ f ∈ classifyUnchanged old cur)) := by
  have hN := fun f => mem_classifyNew_iff old cur f
  have hC := fun f => mem_classifyChanged_iff old cur f hc
  have hD := fun f => mem_classifyDeleted_iff old cur f
  have hU := fun f => mem_classifyUnchanged_iff old cur f hc
  have hko := fun f => (lookupS_isSome_iff old f).symm
  have hkc := fun f => (lookupS_isSome_iff cur f).symm
  refine ⟨fun f => ?_, fun f => ?_, fun f => ?_, fun f => ?_, fun f => ?_,
    fun f => ?_, fun f => ?_⟩ <;>
    simp only [hN f, hC f, hD f, hU f, hko f, hkc f] <;>
    rcases hold : lookupS old f with _ | oh <;>
    rcases hcur : lookupS cur f with _ | h <;>
    simp_all <;>
    tauto

/-- Witness for C3 at a concrete pair of fingerprint maps. -/
theorem classification_partition_witness :
    "b.txt" ∈ classifyChanged [("a.txt", "h1"), ("b.txt", "h2")]
      [("b.txt", "h3"), ("c.txt", "h4")] ∧
    ¬ ("b.txt" ∈ classifyChanged [("a.txt", "h1"), ("b.txt", "h2")]
        [("b.txt", "h3"), ("c.txt", "h4")] ∧
       "b.txt" ∈ classifyUnchanged [("a.txt", "h1"), ("b.txt", "h2")]
        [("b.txt", "h3"), ("c.txt", "h4")]) := by
  have hpart := classification_partition
    [("a.txt", "h1"), ("b.txt", "h2")] [("b.txt", "h3"), ("c.txt", "h4")]
    (by decide) (by decide)
  exact ⟨by decide, hpart.2.2.2.2.2.1 "b.txt"⟩

/-! ### Version-counter arithmetic -/

theorem bumpVersion_tenths (k : ℕ) :
    bumpVersion ((k : ℚ) / 10) = ((k : ℚ) + 1) / 10 := by
  have hx : (((k : ℚ) / 10) + 1/10) * 10 + 1/2 = (k : ℚ) + 3/2 := by ring
  have h0 : (0 : ℚ) ≤ (k : ℚ) + 3/2 := by positivity
  have hfloor : ⌊(k : ℚ) + 3/2⌋ = (k : ℤ) + 1 := by
    rw [Int.floor_eq_iff]
    constructor <;> push_cast <;> linarith
  rw [bumpVersion, hx, goInt, if_pos h0, hfloor]
  push_cast
  ring

theorem le_bumpVersion (v : ℚ) : v ≤ bumpVersion v := by
  rw [bumpVersion, goInt]
  split
  · rw [le_div_iff₀ (by norm_num : (0:ℚ) < 10)]
    have h := Int.sub_one_lt_floor ((v + 1/10) * 10 + 1/2)
    linarith
  · rw [le_div_iff₀ (by norm_num : (0:ℚ) < 10)]
    have h := Int.le_ceil ((v + 1/10) * 10 + 1/2)
    linarith

/-! ### Frame lemmas for the effect semantics -/

theorem applyEff_workFiles (st : GState) (e : Eff) :
    (applyEff st e).workFiles = st.workFiles := by
  cases e with
  | bumpV v => rfl
  | clog p en => rfl
  | toDeleted p =>
    rcases hsnap : st.snapshot with _ | snap
    · simp [applyEff, hsnap]
    · rcases hc : lookupS snap p with _ | c
      · simp [applyEff, hsnap, hc]
      · simp [applyEff, hsnap, hc]
  | snapResult r => cases r <;> rfl
  | saveH m => rfl

theorem applyEff_gitnotExists (st : GState) (e : Eff) :
    (applyEff st e).gitnotExists = st.gitnotExists := by
  cases e with
  | bumpV v => rfl
  | clog p en => rfl
  | toDeleted p =>
    rcases hsnap : st.snapshot with _ | snap
    · simp [applyEff, hsnap]
    · rcases hc : lookupS snap p with _ | c
      · simp [applyEff, hsnap, hc]
      · simp [applyEff, hsnap, hc]
  | snapResult r => cases r <;> rfl
  | saveH m => rfl

theorem applyEff_version_of_ne (st : GState) (e : Eff)
    (h : ∀ v, e ≠ .bumpV v) : (applyEff st e).version = st.version := by
  cases e with
  | bumpV v => exact absurd rfl (h v)
  | clog p en => rfl
  | toDeleted p =>
    rcases hsnap : st.snapshot with _ | snap
    · simp [applyEff, hsnap]
    · rcases hc : lookupS snap p with _ | c
      · simp [applyEff, hsnap, hc]
      · simp [applyEff, hsnap, hc]
  | snapResult r => cases r <;> rfl
  | saveH m => rfl

theorem applyEff_hashes_of_ne (st : GState) (e : Eff)
    (h : ∀ m, e ≠ .saveH m) : (applyEff st e).hashes = st.hashes := by
  cases e with
  | bumpV v => rfl
  | clog p en => rfl
  | toDeleted p =>
    rcases hsnap : st.snapshot with _ | snap
    · simp [applyEff, hsnap]
    · rcases hc : lookupS snap p with _ | c
      · simp [applyEff, hsnap, hc]
      · simp [applyEff, hsnap, hc]
  | snapResult r => cases r <;> rfl
  | saveH m => exact absurd rfl (h m)

theorem foldl_applyEff_workFiles (l : List Eff) (st : GState) :
    (l.foldl applyEff st).workFiles = st.workFiles := by
  induction l generalizing st with
  | nil => rfl
  | cons e rest ih => rw [List.foldl_cons, ih, applyEff_workFiles]

theorem foldl_applyEff_gitnotExists (l : List Eff) (st : GState) :
    (l.foldl applyEff st).gitnotExists = st.gitnotExists := by
  induction l generalizing st with
  | nil => rfl
  | cons e rest ih => rw [List.foldl_cons, ih, applyEff_gitnotExists]

theorem foldl_applyEff_version_of_no_bump (l : List Eff) (st : GState)
    (h : ∀ v, Eff.bumpV v ∉ l) : (l.foldl applyEff st).version = st.version := by
  induction l generalizing st with
  | nil => rfl
  | cons e rest ih =>
    rw [List.foldl_cons, ih _ (fun v hv => h v (List.mem_cons_of_mem _ hv)),
      applyEff_version_of_ne st e (fun v he => h v (he ▸ List.mem_cons_self _ _))]

theorem foldl_applyEff_hashes_of_no_save (l : List Eff) (st : GState)
    (h : ∀ m, Eff.saveH m ∉ l) : (l.foldl applyEff st).hashes = st.hashes := by
  induction l generalizing st with
  | nil => rfl
  | cons e rest ih =>
    rw [List.foldl_cons, ih _ (fun m hm => h m (List.mem_cons_of_mem _ hm)),
      applyEff_hashes_of_ne st e (fun m he => h m (he ▸ List.mem_cons_self _ _))]

/-! ### Shape of the update trace -/

theorem mem_updateMid (st : GState) (e : Eff) (he : e ∈ updateMid st) :
    (∃ p en, e = .clog p en) ∨ (∃ p, e = .toDeleted p) := by
  simp only [updateMid, List.mem_append, List.mem_map, List.mem_flatMap] at he
  rcases he with ((⟨p, _, rfl⟩ | ⟨p, _, rfl⟩) | ⟨p, _, hm⟩)
  · exact .inl ⟨p, _, rfl⟩
  · exact .inl ⟨p, _, rfl⟩
  · simp only [List.mem_cons, List.mem_singleton] at hm
    rcases hm with rfl | (rfl | h)
    · exact .inl ⟨p, _, rfl⟩
    · exact .inr ⟨p, rfl⟩
    · simp at h

theorem bumpV_not_mem_updateMid (st : GState) (v : ℚ) :
    Eff.bumpV v ∉ updateMid st := by
  intro h
  rcases mem_updateMid st _ h with ⟨p, en, he⟩ | ⟨p, he⟩ <;> cases he

theorem saveH_not_mem_updateMid (st : GState) (m : List (String × String)) :
    Eff.saveH m ∉ updateMid st := by
  intro h
  rcases mem_updateMid st _ h with ⟨p, en, he⟩ | ⟨p, he⟩ <;> cases he

theorem saveH_not_mem_updatePre (st : GState) (m : List (String × String)) :
    Eff.saveH m ∉ updatePre st := by
  intro h
  rcases List.mem_cons.mp h with he | he
  · cases he
  · exact saveH_not_mem_updateMid st m he

theorem updateTrace_notInit (st : GState) (o : Oracles)
    (h : st.gitnotExists = false) : updateTrace st o = ([], .errNotInit) := by
  simp [updateTrace, h]

theorem updateTrace_noChanges (st : GState) (o : Oracles)
    (h1 : st.gitnotExists = true) (h2 : ¬ changesDetected st) :
    updateTrace st o = ([], .noChanges) := by
  rw [changesDetected, not_ne_iff] at h2
  simp [updateTrace, h1, h2]

theorem updateTrace_snapshotMissing (st : GState) (o : Oracles)
    (h1 : st.gitnotExists = true) (h2 : changesDetected st)
    (h3 : st.snapshot = none) :
    updateTrace st o = (updatePre st, .abortedSnapshotMissing) := by
  rw [changesDetected] at h2
  simp [updateTrace, h1, h2, h3]

theorem updateTrace_snapshotPresent (st : GState) (o : Oracles)
    (h1 : st.gitnotExists = true) (h2 : changesDetected st)
    (snap : List (String × String)) (h3 : st.snapshot = some snap) :
    updateTrace st o =
      (updatePre st ++ [Eff.snapResult (snapOutcome st.workFiles o).1,
                        Eff.saveH st.workFiles],
       .ok (bumpVersion st.version)) := by
  rw [changesDetected] at h2
  simp [updateTrace, h1, h2, h3]

theorem updateTrace_ok_shape (st : GState) (o : Oracles) (ver : ℚ)
    (h1 : st.gitnotExists = true)
    (h : (updateTrace st o).2 = .ok ver) :
    changesDetected st ∧
    (updateTrace st o).1 =
      updatePre st ++ [Eff.snapResult (snapOutcome st.workFiles o).1,
                       Eff.saveH st.workFiles] := by
  by_cases h2 : changesDetected st
  · refine ⟨h2, ?_⟩
    cases h3 : st.snapshot with
    | none => rw [updateTrace_snapshotMissing st o h1 h2 h3] at h; cases h
    | some snap => rw [updateTrace_snapshotPresent st o h1 h2 snap h3]
  · rw [updateTrace_noChanges st o h1 h2] at h
    cases h

/-! ### Classification of an unchanged filesystem -/

theorem classifyNew_self (cur : List (String × String)) :
    classifyNew cur cur = [] := by
  rw [classifyNew, List.filter_eq_nil_iff]
  intro f hf
  rw [← lookupS_isSome_iff] at hf
  simp only [Bool.not_eq_true, Option.isNone_eq_false_iff]
  exact hf

theorem classifyDeleted_self (cur : List (String × String)) :
    classifyDeleted cur cur = [] := by
  rw [classifyDeleted, List.filter_eq_nil_iff]
  intro f hf
  rw [← lookupS_isSome_iff] at hf
  simp only [Bool.not_eq_true, Option.isNone_eq_false_iff]
  exact hf

theorem classifyChanged_self (cur : List (String × String))
    (hnd : (cur.map Prod.fst).Nodup) : classifyChanged cur cur = [] := by
  rw [classifyChanged, List.map_eq_nil_iff, List.filter_eq_nil_iff]
  intro fh hfh
  have hl : lookupS cur fh.1 = some fh.2 :=
    lookupS_eq_some_of_mem hnd (by simpa using hfh)
  simp [hl]

theorem notChanges_of_self (st : GState) (cur : List (String × String))
    (hh : st.hashes = some cur) (hw : st.workFiles = cur)
    (hnd : (cur.map Prod.fst).Nodup) : ¬ changesDetected st := by
  rw [changesDetected, not_ne_iff, hh, hw]
  simp [classifyNew_self, classifyChanged_self cur hnd, classifyDeleted_self]

/-- C2: a run with empty classification sets reports "no changes" and
mutates nothing; consequently a second Update immediately after a
successful one (no filesystem change in between) performs zero writes
and reports "no changes". -/
theorem update_noop_and_idempotent (st : GState) (o o2 : Oracles)
    (hinit : st.gitnotExists = true)
    (hnd : (st.workFiles.map Prod.fst).Nodup) :
    (¬ changesDetected st → updateGitnot st o = (st, .noChanges)) ∧
    (∀ ver, (updateGitnot st o).2 = .ok ver →
      updateGitnot (updateGitnot st o).1 o2 = ((updateGitnot st o).1, .noChanges)) := by
  constructor
  · intro h2
    rw [updateGitnot, updateTrace_noChanges st o hinit h2]
    rfl
  · intro ver hok
    obtain ⟨h2, htr⟩ := updateTrace_ok_shape st o ver hinit hok
    set st' := (updateGitnot st o).1 with hst'
    have hfold : st' = ((updatePre st ++ [Eff.snapResult (snapOutcome st.workFiles o).1,
        Eff.saveH st.workFiles]).foldl applyEff st) := by
      rw [hst', updateGitnot, htr]
    have hh : st'.hashes = some st.workFiles := by
      rw [hfold, List.foldl_append]
      rfl
    have hw : st'.workFiles = st.workFiles := by
      rw [hfold, foldl_applyEff_workFiles]
    have hg : st'.gitnotExists = true := by
      rw [hfold, foldl_applyEff_gitnotExists, hinit]
    have hnc : ¬ changesDetected st' :=
      notChanges_of_self st' st.workFiles hh hw hnd
    rw [updateGitnot, updateTrace_noChanges st' o2 hg hnc]
    rfl

/-- Witness for C2: a freshly matching state performs no writes. -/
theorem update_noop_witness :
    updateGitnot
      { gitnotExists := true, workFiles := [("a.txt", "h1")],
        hashes := some [("a.txt", "h1")], version := 1/10,
        snapshot := some [("a.txt", "h1")], changelogs := [],
        deletedStore := [] }
      ⟨true, fun _ => true, true, true⟩ =
      ({ gitnotExists := true, workFiles := [("a.txt", "h1")],
         hashes := some [("a.txt", "h1")], version := 1/10,
         snapshot := some [("a.txt", "h1")], changelogs := [],
         deletedStore := [] }, .noChanges) := by
  exact (update_noop_and_idempotent _ ⟨true, fun _ => true, true, true⟩
    ⟨true, fun _ => true, true, true⟩ rfl (by decide)).1 (by decide)

/-- C4: the snapshot rebuild replaces the mirror only when every copy
succeeds; a copy failure aborts with a warning leaving the mirror
untouched; and when removal of the old mirror succeeds but the rename
fails, the mirror is gone and a warning is surfaced. -/
theorem rebuildSnapshot_spec (snap files : List (String × String)) (o : Oracles) :
    (o.tempOk = true → files.all (fun fh => o.copyOk fh.1) = false →
      rebuildSnapshot snap files o = (some snap, true)) ∧
    (o.tempOk = true → files.all (fun fh => o.copyOk fh.1) = true →
      o.removeOk = true → o.renameOk = false →
      rebuildSnapshot snap files o = (none, true)) ∧
    ((rebuildSnapshot snap files o).1 ≠ some snap →
      o.tempOk = true ∧ files.all (fun fh => o.copyOk fh.1) = true ∧
        o.removeOk = true) := by
  refine ⟨?_, ?_, ?_⟩
  · intro ht hc
    simp [rebuildSnapshot, snapOutcome, ht, hc]
  · intro ht hc hrm hrn
    simp [rebuildSnapshot, snapOutcome, ht, hc, hrm, hrn]
  · intro hne
    by_cases ht : o.tempOk = true
    · by_cases hc : files.all (fun fh => o.copyOk fh.1) = true
      · by_cases hrm : o.removeOk = true
        · exact ⟨ht, hc, hrm⟩
        · rw [Bool.not_eq_true] at hrm
          simp [rebuildSnapshot, snapOutcome, ht, hc, hrm] at hne
      · rw [Bool.not_eq_true] at hc
        simp [rebuildSnapshot, snapOutcome, ht, hc] at hne
    · rw [Bool.not_eq_true] at ht
      simp [rebuildSnapshot, snapOutcome, ht] at hne

/-- Witness for C4: one failing copy leaves a concrete mirror untouched
with a warning. -/
theorem rebuildSnapshot_witness :
    rebuildSnapshot [("a.txt", "h1")] [("a.txt", "h2"), ("b.txt", "h3")]
      ⟨true, fun p => decide (p = "a.txt"), true, true⟩ =
      (some [("a.txt", "h1")], true) := by
  exact (rebuildSnapshot_spec [("a.txt", "h1")] [("a.txt", "h2"), ("b.txt", "h3")]
    ⟨true, fun p => decide (p = "a.txt"), true, true⟩).1 rfl (by decide)

/-! ### Initialize (C10) -/

theorem mem_appendLog_keys (cls : List (String × List ClEntry)) (p q : String)
    (e : ClEntry) :
    q ∈ (appendLog cls p e).map Prod.fst ↔ q ∈ cls.map Prod.fst ∨ q = p := by
  induction cls with
  | nil => simp [appendLog]
  | cons kv rest ih =>
    obtain ⟨k, es⟩ := kv
    by_cases hk : k = p
    · subst hk
      simp [appendLog]
      tauto
    · simp [appendLog, hk, ih]
      tauto

theorem initFold_hashes_no_failed (copyOk : String → Bool) (f : String)
    (hcf : copyOk f = false) :
    ∀ (files : List (String × String))
      (acc : List (String × String) × List (String × String) ×
             List (String × List ClEntry)),
      f ∉ acc.2.1.map Prod.fst →
      f ∉ (files.foldl (initStep copyOk) acc).2.1.map Prod.fst := by
  intro files
  induction files with
  | nil => intro acc h; exact h
  | cons fh rest ih =>
    intro acc h
    rw [List.foldl_cons]
    apply ih
    by_cases hc : copyOk fh.1 = true
    · simp only [initStep, hc, if_true, List.map_append, List.mem_append]
      rintro (hmem | hmem)
      · exact h hmem
      · simp only [List.map_cons, List.map_nil, List.mem_singleton] at hmem
        subst hmem
        rw [hc] at hcf
        cases hcf
    · rw [Bool.not_eq_true] at hc
      simp only [initStep, hc, if_false]
      exact h

theorem initFold_changelogs_no_failed (copyOk : String → Bool) (f : String)
    (hcf : copyOk f = false) :
    ∀ (files : List (String × String))
      (acc : List (String × String) × List (String × String) ×
             List (String × List ClEntry)),
      f ∉ acc.2.2.map Prod.fst →
      f ∉ (files.foldl (initStep copyOk) acc).2.2.map Prod.fst := by
  intro files
  induction files with
  | nil => intro acc h; exact h
  | cons fh rest ih =>
    intro acc h
    rw [List.foldl_cons]
    apply ih
    by_cases hc : copyOk fh.1 = true
    · simp only [initStep, hc, if_true]
      rw [mem_appendLog_keys]
      rintro (hmem | hmem)
      · exact h hmem
      · subst hmem
        rw [hc] at hcf
        cases hcf
    · rw [Bool.not_eq_true] at hc
      simp only [initStep, hc, if_false]
      exact h

theorem initFold_hashes_subset (copyOk : String → Bool) :
    ∀ (files : List (String × String))
      (acc : List (String × String) × List (String × String) ×
             List (String × List ClEntry)),
      (files.foldl (initStep copyOk) acc).2.1.map Prod.fst ⊆
        acc.2.1.map Prod.fst ++ files.map Prod.fst := by
  intro files
  induction files with
  | nil => intro acc; simp
  | cons fh rest ih =>
    intro acc a ha
    rw [List.foldl_cons] at ha
    have hsub := ih (initStep copyOk acc fh) ha
    rw [List.mem_append] at hsub
    rcases hsub with hmem | hmem
    · by_cases hc : copyOk fh.1 = true
      · simp only [initStep, hc, if_true, List.map_append, List.mem_append] at hmem
        rcases hmem with hmem | hmem
        · simp [hmem]
        · simp only [List.map_cons, List.map_nil, List.mem_singleton] at hmem
          simp [hmem]
      · rw [Bool.not_eq_true] at hc
        simp only [initStep, hc, Bool.false_eq_true, if_false] at hmem
        simp [hmem]
    · simp [hmem]

/-- C10: during Initialize a file whose copy into the snapshot fails is
silently skipped — it gets no fingerprint entry and no initial changelog
entry — yet Initialize reports success; the fingerprint key set is then
a subset of the tracked list missing that file, and the file is
classified as new on the next run. -/
theorem init_skips_failed_copy (files : List (String × String))
    (copyOk : String → Bool) (f : String)
    (hf : f ∈ files.map Prod.fst) (hcf : copyOk f = false) :
    ∃ hs, (initGitnot files copyOk).1.hashes = some hs ∧
      f ∉ hs.map Prod.fst ∧
      hs.map Prod.fst ⊆ files.map Prod.fst ∧
      f ∉ (initGitnot files copyOk).1.changelogs.map Prod.fst ∧
      f ∈ classifyNew hs (initGitnot files copyOk).1.workFiles ∧
      (initGitnot files copyOk).2 = true := by
  refine ⟨(files.foldl (initStep copyOk) ([], [], [])).2.1, rfl, ?_, ?_, ?_, ?_, rfl⟩
  · exact initFold_hashes_no_failed copyOk f hcf files _ (by simp)
  · have h := initFold_hashes_subset copyOk files ([], [], [])
    simpa using h
  · exact initFold_changelogs_no_failed copyOk f hcf files _ (by simp)
  · rw [mem_classifyNew_iff]
    refine ⟨hf, ?_⟩
    rw [lookupS_eq_none_iff]
    exact initFold_hashes_no_failed copyOk f hcf files _ (by simp)

/-- Witness for C10 with a concrete failing copy. -/
theorem init_skips_failed_copy_witness :
    ∃ hs, (initGitnot [("a.txt", "h1"), ("b.txt", "h2")]
        (fun p => decide (p = "a.txt"))).1.hashes = some hs ∧
      "b.txt" ∉ hs.map Prod.fst ∧
      hs.map Prod.fst ⊆ [("a.txt", "h1"), ("b.txt", "h2")].map Prod.fst ∧
      "b.txt" ∉ (initGitnot [("a.txt", "h1"), ("b.txt", "h2")]
        (fun p => decide (p = "a.txt"))).1.changelogs.map Prod.fst ∧
      "b.txt" ∈ classifyNew hs (initGitnot [("a.txt", "h1"), ("b.txt", "h2")]
        (fun p => decide (p = "a.txt"))).1.workFiles ∧
      (initGitnot [("a.txt", "h1"), ("b.txt", "h2")]
        (fun p => decide (p = "a.txt"))).2 = true :=
  init_skips_failed_copy [("a.txt", "h1"), ("b.txt", "h2")]
    (fun p => decide (p = "a.txt")) "b.txt" (by decide) (by decide)

/-! ### Order of persistence (C1, C9) -/

theorem updateTrace_head (st : GState) (o : Oracles)
    (hinit : st.gitnotExists = true) (hch : changesDetected st) :
    ∃ rest, (updateTrace st o).1 = Eff.bumpV (bumpVersion st.version) :: rest ∧
      (∀ v, Eff.bumpV v ∉ rest) ∧
      (∀ m, Eff.saveH m ∈ rest → m = st.workFiles) := by
  cases h3 : st.snapshot with
  | none =>
    rw [updateTrace_snapshotMissing st o hinit hch h3]
    exact ⟨updateMid st, rfl, fun v => bumpV_not_mem_updateMid st v,
      fun m hm => absurd hm (saveH_not_mem_updateMid st m)⟩
  | some snap =>
    rw [updateTrace_snapshotPresent st o hinit hch snap h3]
    refine ⟨updateMid st ++ [Eff.snapResult (snapOutcome st.workFiles o).1,
      Eff.saveH st.workFiles], by simp [updatePre], ?_, ?_⟩
    · intro v hv
      rcases List.mem_append.mp hv with h | h
      · exact bumpV_not_mem_updateMid st v h
      · simp at h
    · intro m hm
      rcases List.mem_append.mp hm with h | h
      · exact absurd h (saveH_not_mem_updateMid st m)
      · simp at h
        exact h

theorem update_version_of_changes (st : GState) (o : Oracles)
    (hinit : st.gitnotExists = true) (hch : changesDetected st) :
    (updateGitnot st o).1.version = bumpVersion st.version := by
  obtain ⟨rest, htr, hnb, _⟩ := updateTrace_head st o hinit hch
  rw [updateGitnot]
  simp only [htr, List.foldl_cons]
  rw [foldl_applyEff_version_of_no_bump _ _ hnb]
  rfl

theorem changesDetected_congr (st1 st2 : GState)
    (hh : st1.hashes = st2.hashes) (hw : st1.workFiles = st2.workFiles) :
    changesDetected st1 ↔ changesDetected st2 := by
  rw [changesDetected, changesDetected, hh, hw]

/-- C1 (amended): the fingerprint map is the final write of a
change-detecting run, after every changelog append and the snapshot swap
attempt, and it is not persisted when the prior mirror is entirely
missing (the run aborts with prior fingerprints intact); however, a
rebuild or rename failure only produces a warning, and the fingerprint
map is persisted anyway. -/
theorem hashes_saved_last (st : GState) (o : Oracles)
    (hinit : st.gitnotExists = true) (hch : changesDetected st) :
    (st.snapshot = none →
      (updateGitnot st o).1.hashes = st.hashes ∧
      (updateGitnot st o).2 = .abortedSnapshotMissing) ∧
    (∀ snap, st.snapshot = some snap →
      (updateTrace st o).1.getLast? = some (Eff.saveH st.workFiles) ∧
      (∀ m, Eff.saveH m ∉ (updateTrace st o).1.dropLast) ∧
      (updateGitnot st o).1.hashes = some st.workFiles) := by
  constructor
  · intro h3
    rw [updateGitnot, updateTrace_snapshotMissing st o hinit hch h3]
    exact ⟨foldl_applyEff_hashes_of_no_save _ _
      (fun m hm => saveH_not_mem_updatePre st m hm), rfl⟩
  · intro snap h3
    have htr := updateTrace_snapshotPresent st o hinit hch snap h3
    have hsplit : updatePre st ++ [Eff.snapResult (snapOutcome st.workFiles o).1,
        Eff.saveH st.workFiles] =
        (updatePre st ++ [Eff.snapResult (snapOutcome st.workFiles o).1]) ++
          [Eff.saveH st.workFiles] := by simp
    refine ⟨?_, ?_, ?_⟩
    · rw [htr]
      simp only [hsplit]
      rw [List.getLast?_concat]
    · intro m hm
      rw [htr] at hm
      simp only [hsplit] at hm
      rw [List.dropLast_concat] at hm
      rcases List.mem_append.mp hm with h | h
      · exact saveH_not_mem_updatePre st m h
      · simp at h
    · rw [updateGitnot, htr]
      simp only [hsplit]
      rw [List.foldl_append]
      rfl

/-- Witness for C1's amended theorem at a concrete changed file. -/
theorem hashes_saved_last_witness :
    (updateGitnot
      { gitnotExists := true, workFiles := [("a.txt", "h2")],
        hashes := some [("a.txt", "h1")], version := 0,
        snapshot := some [("a.txt", "h1")], changelogs := [],
        deletedStore := [] }
      ⟨true, fun _ => true, true, true⟩).1.hashes = some [("a.txt", "h2")] :=
  ((hashes_saved_last
      { gitnotExists := true, workFiles := [("a.txt", "h2")],
        hashes := some [("a.txt", "h1")], version := 0,
        snapshot := some [("a.txt", "h1")], changelogs := [],
        deletedStore := [] }
      ⟨true, fun _ => true, true, true⟩ rfl (by decide)).2
    [("a.txt", "h1")] rfl).2.2

/-- C1 counterexample: the rename of the new snapshot into place fails
(`renameOk = false`), the snapshot is lost — and the new fingerprint map
is persisted anyway, contradicting "the fingerprint map is not
persisted" for failed swaps. -/
theorem hashes_saved_despite_rename_failure :
    (updateGitnot
      { gitnotExists := true, workFiles := [("a.txt", "h2")],
        hashes := some [("a.txt", "h1")], version := 0,
        snapshot := some [("a.txt", "h1")], changelogs := [],
        deletedStore := [] }
      ⟨true, fun _ => true, true, false⟩).1.hashes = some [("a.txt", "h2")] ∧
    (updateGitnot
      { gitnotExists := true, workFiles := [("a.txt", "h2")],
        hashes := some [("a.txt", "h1")], version := 0,
        snapshot := some [("a.txt", "h1")], changelogs := [],
        deletedStore := [] }
      ⟨true, fun _ => true, true, false⟩).1.snapshot = none := by
  constructor <;> rfl

/-- C9: in a change-detecting run the bumped version is written first,
before any changelog, snapshot, or fingerprint write; any interrupted
run (a nonempty proper prefix of the effect list, hence one without the
final fingerprint save) leaves the version bumped and the fingerprint
map unchanged, and a subsequent run on the interrupted state bumps the
version again. -/
theorem version_bump_precedes_all (st : GState) (o : Oracles)
    (hinit : st.gitnotExists = true) (hch : changesDetected st) :
    (∃ rest, (updateTrace st o).1 = Eff.bumpV (bumpVersion st.version) :: rest) ∧
    (∀ l, l <+: (updateTrace st o).1 → l ≠ [] → (∀ m, Eff.saveH m ∉ l) →
      (l.foldl applyEff st).version = bumpVersion st.version ∧
      (l.foldl applyEff st).hashes = st.hashes ∧
      (∀ o2, (updateGitnot (l.foldl applyEff st) o2).1.version =
        bumpVersion (bumpVersion st.version))) := by
  obtain ⟨rest, htr, hnb, hsv⟩ := updateTrace_head st o hinit hch
  refine ⟨⟨rest, htr⟩, ?_⟩
  intro l hpre hne hns
  rw [htr] at hpre
  obtain ⟨s, hs⟩ := hpre
  cases l with
  | nil => exact absurd rfl hne
  | cons x l' =>
    rw [List.cons_append] at hs
    injection hs with h1 h2
    subst h1
    have hl' : l' <+: rest := ⟨s, h2⟩
    have hnb' : ∀ v, Eff.bumpV v ∉ l' := fun v hv => hnb v (hl'.subset hv)
    have hver : ((Eff.bumpV (bumpVersion st.version) :: l').foldl applyEff st).version =
        bumpVersion st.version := by
      rw [List.foldl_cons, foldl_applyEff_version_of_no_bump _ _ hnb']
      rfl
    have hhash : ((Eff.bumpV (bumpVersion st.version) :: l').foldl applyEff st).hashes =
        st.hashes := foldl_applyEff_hashes_of_no_save _ _ hns
    refine ⟨hver, hhash, ?_⟩
    intro o2
    have hw := foldl_applyEff_workFiles (Eff.bumpV (bumpVersion st.version) :: l') st
    have hg : ((Eff.bumpV (bumpVersion st.version) :: l').foldl applyEff st).gitnotExists =
        true := by
      rw [foldl_applyEff_gitnotExists]
      exact hinit
    have hch' : changesDetected ((Eff.bumpV (bumpVersion st.version) :: l').foldl applyEff st) :=
      (changesDetected_congr _ st hhash hw).mpr hch
    rw [update_version_of_changes _ o2 hg hch', hver]

/-- Witness for C9 at a concrete changed file, interrupted right after
the version write. -/
theorem version_bump_precedes_all_witness :
    ∃ rest,
      (updateTrace
        { gitnotExists := true, workFiles := [("a.txt", "h2")],
          hashes := some [("a.txt", "h1")], version := 0,
          snapshot := some [("a.txt", "h1")], changelogs := [],
          deletedStore := [] }
        ⟨true, fun _ => true, true, true⟩).1 =
      Eff.bumpV (bumpVersion (0 : ℚ)) :: rest :=
  (version_bump_precedes_all
    { gitnotExists := true, workFiles := [("a.txt", "h2")],
      hashes := some [("a.txt", "h1")], version := 0,
      snapshot := some [("a.txt", "h1")], changelogs := [],
      deletedStore := [] }
    ⟨true, fun _ => true, true, true⟩ rfl (by decide)).1

/-! ### Version monotonicity across Update runs (C5) -/

/-- C5: `bump()` computes exactly round1(version + 0.1) (multiply by 10,
add 0.5, truncate, divide by 10): on the one-decimal grid it adds
exactly 0.1; the version never decreases across any Update call, and a
call that detects changes sets it to exactly the bumped value. -/
theorem bumpVersion_update_spec :
    (∀ k : ℕ, bumpVersion ((k : ℚ) / 10) = ((k : ℚ) + 1) / 10) ∧
    (∀ v : ℚ, v ≤ bumpVersion v) ∧
    (∀ (st : GState) (o : Oracles), st.version ≤ (updateGitnot st o).1.version) ∧
    (∀ (st : GState) (o : Oracles), st.gitnotExists = true → changesDetected st →
      (updateGitnot st o).1.version = bumpVersion st.version) ∧
    (∀ (st : GState) (o : Oracles) (k : ℕ), st.gitnotExists = true →
      changesDetected st → st.version = (k : ℚ) / 10 →
      (updateGitnot st o).1.version = st.version + 1/10) := by
  have hmain : ∀ (st : GState) (o : Oracles), st.gitnotExists = true →
      changesDetected st → (updateGitnot st o).1.version = bumpVersion st.version :=
    fun st o h1 h2 => update_version_of_changes st o h1 h2
  refine ⟨bumpVersion_tenths, le_bumpVersion, ?_, hmain, ?_⟩
  · intro st o
    by_cases h1 : st.gitnotExists = true
    · by_cases h2 : changesDetected st
      · rw [hmain st o h1 h2]
        exact le_bumpVersion st.version
      · rw [updateGitnot, updateTrace_noChanges st o h1 h2]
        exact le_rfl
    · rw [Bool.not_eq_true] at h1
      rw [updateGitnot, updateTrace_notInit st o h1]
      exact le_rfl
  · intro st o k h1 h2 hk
    rw [hmain st o h1 h2, hk, bumpVersion_tenths]
    ring

/-- Witness for C5 at a concrete changed file at version 0.0. -/
theorem bumpVersion_update_spec_witness :
    (updateGitnot
      { gitnotExists := true, workFiles := [("a.txt", "h2")],
        hashes := some [("a.txt", "h1")], version := 0,
        snapshot := some [("a.txt", "h1")], changelogs := [],
        deletedStore := [] }
      ⟨true, fun _ => true, true, true⟩).1.version = 0 + 1/10 :=
  bumpVersion_update_spec.2.2.2.2
    { gitnotExists := true, workFiles := [("a.txt", "h2")],
      hashes := some [("a.txt", "h1")], version := 0,
      snapshot := some [("a.txt", "h1")], changelogs := [],
      deletedStore := [] }
    ⟨true, fun _ => true, true, true⟩ 0 rfl (by decide) (by norm_num)

/-! ### Fingerprint properties (C7) -/

theorem wordHex_length (w : ℕ) : (wordHex w).length = 8 := by
  simp [wordHex, byteHex]

theorem sha1Hex_length (msg : List ℕ) : (sha1Hex msg).length = 40 := by
  simp [sha1Hex, wordHex_length]

theorem hexDigit_isHex : ∀ n < 16, isHexDigitChar (hexDigit n) = true := by decide

theorem mem_byteHex_isHex (b : ℕ) (c : Char) (hc : c ∈ byteHex b) :
    isHexDigitChar c = true := by
  simp only [byteHex, List.mem_cons, List.mem_singleton, List.not_mem_nil,
    or_false] at hc
  rcases hc with rfl | rfl
  · exact hexDigit_isHex _ (Nat.mod_lt _ (by norm_num))
  · exact hexDigit_isHex _ (Nat.mod_lt _ (by norm_num))

theorem mem_wordHex_isHex (w : ℕ) (c : Char) (hc : c ∈ wordHex w) :
    isHexDigitChar c = true := by
  simp only [wordHex, List.mem_append] at hc
  rcases hc with ((h | h) | h) | h <;> exact mem_byteHex_isHex _ _ h

theorem mem_sha1Hex_isHex (msg : List ℕ) (c : Char) (hc : c ∈ sha1Hex msg) :
    isHexDigitChar c = true := by
  simp only [sha1Hex, List.mem_append] at hc
  rcases hc with (((h | h) | h) | h) | h <;> exact mem_wordHex_isHex _ _ h

/-- C7: `hashFile` is deterministic; for readable files it returns a
40-character lowercase hex digest computed from the content alone (so
identical byte content gives identical fingerprints); for unreadable
files it returns the sentinel `"unreadable-" + base name`, a value
stable across runs and distinct for distinct base names. -/
theorem hashFile_spec :
    (∀ (fs1 fs2 : List Char → Option (List ℕ)) (p1 p2 : List Char) (b : List ℕ),
      fs1 p1 = some b → fs2 p2 = some b → hashFile fs1 p1 = hashFile fs2 p2) ∧
    (∀ (fs : List Char → Option (List ℕ)) (p : List Char) (b : List ℕ),
      fs p = some b →
      (hashFile fs p).length = 40 ∧
      ∀ c ∈ hashFile fs p, isHexDigitChar c = true) ∧
    (∀ (fs : List Char → Option (List ℕ)) (p : List Char), fs p = none →
      hashFile fs p = "unreadable-".toList ++ baseNameChars p) ∧
    (∀ p1 p2 : List Char, baseNameChars p1 ≠ baseNameChars p2 →
      "unreadable-".toList ++ baseNameChars p1 ≠
        "unreadable-".toList ++ baseNameChars p2) := by
  refine ⟨?_, ?_, ?_, ?_⟩
  · intro fs1 fs2 p1 p2 b h1 h2
    simp [hashFile, h1, h2]
  · intro fs p b h
    simp only [hashFile, h]
    exact ⟨sha1Hex_length b, fun c hc => mem_sha1Hex_isHex b c hc⟩
  · intro fs p h
    simp [hashFile, h]
  · intro p1 p2 hne h
    exact hne (List.append_cancel_left h)

/-- Witness for C7: a concrete readable file has a 40-hex fingerprint
and a concrete unreadable file gets its sentinel. -/
theorem hashFile_spec_witness :
    (hashFile (fun _ => some [97, 98, 99]) "a.txt".toList).length = 40 ∧
    hashFile (fun _ => none) "dir/a.txt".toList =
      "unreadable-".toList ++ baseNameChars "dir/a.txt".toList :=
  ⟨(hashFile_spec.2.1 (fun _ => some [97, 98, 99]) "a.txt".toList
      [97, 98, 99] rfl).1,
   hashFile_spec.2.2.1 (fun _ => none) "dir/a.txt".toList rfl⟩

/-! ### State-directory exclusion (C8) -/

/-- C8: the exclusion test is a plain string-prefix match — a sibling
directory named `.gitnothing` passes `isUnderGitnot` although it is not
a path segment of the state directory — and any directory whose path
passes the test is skipped together with its entire subtree, so its
files are excluded from the walk. -/
theorem gitnot_exclusion_prefix_match :
    isUnderGitnot ".gitnothing".toList = true ∧
    isUnderGitnotSegment ".gitnothing".toList = false ∧
    (∀ (exts : List (List Char)) (ign : List Char → Bool) (pre name : List Char)
       (children : List FsTree), isUnderGitnot (pre ++ name) = true →
       walkCollect exts ign pre (.dir name children) = []) ∧
    getAllTextFiles [".txt".toList] (fun _ => false)
      [.dir ".gitnothing".toList [.file "a.txt".toList],
       .file "b.txt".toList] = ["b.txt".toList] := by
  refine ⟨by decide, by decide, ?_, by decide⟩
  intro exts ign pre name children h
  simp [walkCollect, h]

/-- Witness for C8: the `.gitnothing` sibling's subtree is dropped. -/
theorem gitnot_exclusion_witness :
    walkCollect [".txt".toList] (fun _ => false) []
      (.dir ".gitnothing".toList [.file "a.txt".toList]) = [] :=
  gitnot_exclusion_prefix_match.2.2.1 [".txt".toList] (fun _ => false) []
    ".gitnothing".toList [.file "a.txt".toList] (by decide)

/-! ### Diff rendering (C6) -/

theorem pairSkip_eq_false (line : List Char) (rest : List (List Char))
    (h : ∀ r a rest2, line = '-' :: r → rest = ('+' :: a) :: rest2 →
      trimChars r ≠ trimChars a) :
    pairSkip line rest = false := by
  unfold pairSkip
  split
  · next r a rest2 => exact beq_eq_false_iff_ne.mpr (h r a _ rfl rfl)
  · rfl

/-- C6 (amended): the walk of `formatDiffAsMarkdown`, case by case: a
removed line immediately followed by an added line with identical
trimmed content is skipped with both counters advancing; otherwise a
removed line is emitted as `L<old>: <trimmed>` into the Removed list
advancing the old counter, and an added line as `L<new>: <trimmed>` into
the Added list advancing the new counter — except lines beginning with
`---` or `+++` (the unified-diff file-header guard), which are treated
as context; context lines advance both counters emitting nothing; a
`\` no-newline marker advances neither; a hunk header resets both
counters to its parsed starting numbers. -/
theorem walkDiff_cases :
    ∀ (o n : ℤ) (ad rm : List (List Char)) (rest : List (List Char)),
    (∀ r a rest2, trimChars r = trimChars a →
      walkDiff (('-' :: r) :: ('+' :: a) :: rest2) o n ad rm =
      walkDiff rest2 (o + 1) (n + 1) ad rm) ∧
    (∀ r, (∀ a rest2, rest = ('+' :: a) :: rest2 → trimChars r ≠ trimChars a) →
      ['-','-'].isPrefixOf r = false →
      walkDiff (('-' :: r) :: rest) o n ad rm =
      walkDiff rest (o + 1) n ad (rm ++ [fmtL o (trimChars r)])) ∧
    (∀ r, (∀ a rest2, rest = ('+' :: a) :: rest2 → trimChars r ≠ trimChars a) →
      ['-','-'].isPrefixOf r = true →
      walkDiff (('-' :: r) :: rest) o n ad rm =
      walkDiff rest (o + 1) (n + 1) ad rm) ∧
    (∀ a, ['+','+'].isPrefixOf a = false →
      walkDiff (('+' :: a) :: rest) o n ad rm =
      walkDiff rest o (n + 1) (ad ++ [fmtL n (trimChars a)]) rm) ∧
    (∀ a, ['+','+'].isPrefixOf a = true →
      walkDiff (('+' :: a) :: rest) o n ad rm =
      walkDiff rest (o + 1) (n + 1) ad rm) ∧
    (∀ t, walkDiff (('\\' :: t) :: rest) o n ad rm = walkDiff rest o n ad rm) ∧
    (∀ line, ['@','@'].isPrefixOf line = false → ['-'].isPrefixOf line = false →
      ['+'].isPrefixOf line = false → ['\\'].isPrefixOf line = false →
      walkDiff (line :: rest) o n ad rm = walkDiff rest (o + 1) (n + 1) ad rm) ∧
    (∀ line, ['@','@'].isPrefixOf line = true →
      walkDiff (line :: rest) o n ad rm =
      walkDiff rest (parseHunkOld line o) (parseHunkNew line n) ad rm) ∧
    (parseHunkOld "@@ -3,4 +7,2 @@".toList o = 3 ∧
     parseHunkNew "@@ -3,4 +7,2 @@".toList n = 7) := by
  intro o n ad rm rest
  refine ⟨?_, ?_, ?_, ?_, ?_, ?_, ?_, ?_, rfl, rfl⟩
  · intro r a rest2 htrim
    have h2 : pairSkip ('-' :: r) (('+' :: a) :: rest2) = true := by
      simp [pairSkip, htrim]
    conv_lhs => rw [walkDiff.eq_def]
    simp [List.isPrefixOf, h2]
  · intro r hnp h3
    have h2 : pairSkip ('-' :: r) rest = false := by
      apply pairSkip_eq_false
      rintro r' a rest2 heq hrest
      injection heq with _ htail
      subst htail
      exact hnp a rest2 hrest
    conv_lhs => rw [walkDiff.eq_def]
    simp [List.isPrefixOf, h2, h3]
  · intro r hnp h3
    have h2 : pairSkip ('-' :: r) rest = false := by
      apply pairSkip_eq_false
      rintro r' a rest2 heq hrest
      injection heq with _ htail
      subst htail
      exact hnp a rest2 hrest
    conv_lhs => rw [walkDiff.eq_def]
    simp [List.isPrefixOf, h2, h3]
  · intro a h3
    have h2 : pairSkip ('+' :: a) rest = false := by
      apply pairSkip_eq_false
      rintro r' a' rest2 heq hrest
      injection heq with hhd _
      cases hhd
    conv_lhs => rw [walkDiff.eq_def]
    simp [List.isPrefixOf, h2, h3]
  · intro a h3
    have h2 : pairSkip ('+' :: a) rest = false := by
      apply pairSkip_eq_false
      rintro r' a' rest2 heq hrest
      injection heq with hhd _
      cases hhd
    conv_lhs => rw [walkDiff.eq_def]
    simp [List.isPrefixOf, h2, h3]
  · intro t
    have h2 : pairSkip ('\\' :: t) rest = false := by
      apply pairSkip_eq_false
      rintro r' a' rest2 heq hrest
      injection heq with hhd _
      cases hhd
    conv_lhs => rw [walkDiff.eq_def]
    simp [List.isPrefixOf, h2]
  · intro line h1 h4 h5 h6
    have h2 : pairSkip line rest = false := by
      apply pairSkip_eq_false
      rintro r' a' rest2 heq hrest
      subst heq
      simp [List.isPrefixOf] at h4
    conv_lhs => rw [walkDiff.eq_def]
    simp [h1, h2, h4, h5, h6]
  · intro line h1
    conv_lhs => rw [walkDiff.eq_def]
    simp [h1]

/-- C6 counterexample: the `-`-prefixed body line `---x` is not emitted
as a removed line `L5: --x`; the code's file-header guard treats it as
context, advancing both counters (the following `+y` is numbered `L8`,
not `L7`, and the Removed list stays empty). -/
theorem walkDiff_header_guard_cex :
    walkDiff [['-','-','-','x'], ['+','y']] 5 7 [] [] =
      ([['L','8',':',' ','y']], []) ∧
    trimChars ['-','-','x'] ≠ trimChars ['y'] := by
  refine ⟨by decide, by decide⟩

/-- Witness for C6's amended theorem: a concrete whitespace-churn pair
is skipped with both counters advancing. -/
theorem walkDiff_cases_witness :
    walkDiff [['-','x'], ['+',' ','x']] 2 3 [] [] = walkDiff [] 3 4 [] [] ∧
    trimChars ['x'] = trimChars [' ','x'] :=
  ⟨(walkDiff_cases 2 3 [] [] []).1 ['x'] [' ','x'] [] (by decide), by decide⟩
